import Mathlib

/-!
# Alpha-Scope transaction feed pipeline: shallow embedding

Verification development for the feed ingestion and enrichment pipeline of
`src/components/TransactionFeed.tsx` (together with the thin RPC wrapper
`alchemyProxy` in `lib/alchemy-proxy.ts`, which returns the raw JSON-RPC
`result` objects, whose quantity fields are hex strings such as "0x0").

The embedding models:
* the JavaScript value semantics relevant to `processTransaction` lines 58-62
  (truthiness of raw JSON-RPC fields, `Number(...)` on hex strings, IEEE-style
  division by zero producing infinities/NaN rather than an error);
* the Feed Buffer update performed by `setTransactions` in
  `processTransaction` lines 81-84 (`upsert`);
* the pause/resume merge in `handlePauseToggle` lines 217-234 (`thawMerge`,
  including the first-insertion-order / last-value-wins semantics of a
  JavaScript `Map` and the stable descending sort by timestamp);
* one active tick of `pollForNewBlocks` lines 106-196 (`pollForNewBlocks`),
  with the upstream RPC responses supplied by an oracle environment;
* the in-flight hash-set discipline of `processTransaction` lines 45-53 and
  87-89 (`processTransactionStart` / `processTransactionFinish`).

Machine integers: block numbers are `Int` (the source computes
`currentBlockNumber - 2`, which can go below zero and is guarded by
`if (blockNum < 0) continue`); timestamps (`Date.getTime()` milliseconds)
are `Nat`; JSON-RPC quantities are hex strings parsed to exact rationals.
-/

namespace AlphaScope

/-! ## JavaScript number semantics (for the derived metrics)

`processTransaction` computes `slippage` and `priceImpact` with JavaScript
number arithmetic on `Number(hexString)` values.  We model a JS number as an
exact rational, positive/negative infinity, or NaN; the only non-finite
values that can arise here come from division by zero. -/

inductive JSNum where
  | num (q : ℚ)
  | posInf
  | negInf
  | nan
deriving DecidableEq, Repr

/-- JavaScript subtraction, restricted to the cases reachable here (both
operands finite, since they come from `Number` of a hex-quantity string). -/
def jsSub : JSNum → JSNum → JSNum
  | .num a, .num b => .num (a - b)
  | _, _ => .nan

/-- JavaScript multiplication by a finite constant (the `* 100` steps). -/
def jsMul : JSNum → JSNum → JSNum
  | .num a, .num b => .num (a * b)
  | .posInf, .num b => if b > 0 then .posInf else if b < 0 then .negInf else .nan
  | .negInf, .num b => if b > 0 then .negInf else if b < 0 then .posInf else .nan
  | .num a, .posInf => if a > 0 then .posInf else if a < 0 then .negInf else .nan
  | .num a, .negInf => if a > 0 then .negInf else if a < 0 then .posInf else .nan
  | _, _ => .nan

/-- JavaScript division: a nonzero finite numerator over zero yields a signed
infinity, `0 / 0` yields NaN — JavaScript raises no error on division by
zero. -/
def jsDiv : JSNum → JSNum → JSNum
  | .num a, .num b =>
      if b = 0 then (if a = 0 then .nan else if a > 0 then .posInf else .negInf)
      else .num (a / b)
  | _, _ => .nan

/-- Value of one hex digit. -/
def hexDigitVal (c : Char) : Option Nat :=
  if c.isDigit then some (c.toNat - 48)
  else if 97 ≤ c.toNat ∧ c.toNat ≤ 102 then some (c.toNat - 87)
  else if 65 ≤ c.toNat ∧ c.toNat ≤ 70 then some (c.toNat - 55)
  else none

/-- Value of a nonempty string of hex digits, `none` on a malformed digit. -/
def hexDigitsVal : List Char → Option Nat
  | [] => none
  | [c] => hexDigitVal c
  | c :: rest => do
      let hd ← hexDigitVal c
      let tl ← hexDigitsVal rest
      -- positional value: earlier digits are more significant
      pure (hd * 16 ^ rest.length + tl)

/-- `Number(s)` for the string shapes that occur in raw JSON-RPC results:
`"0x..."` hex quantities parse exactly, the empty string parses to `0`
(JavaScript `Number("") = 0`), anything else is NaN here. -/
def jsNumberOfString (s : String) : JSNum :=
  match s.data with
  | [] => .num 0
  | '0' :: 'x' :: rest =>
      match hexDigitsVal rest with
      | some n => .num n
      | none => .nan
  | _ => .nan

/-- `Number(v)` for an optional JSON field: `Number(undefined)` is NaN. -/
def jsNumberOpt : Option String → JSNum
  | none => .nan
  | some s => jsNumberOfString s

/-- JavaScript truthiness of an optional JSON string field: a missing or
`null` field is falsy, a string is truthy iff it is nonempty.  In particular
the hex string `"0x0"` — the raw JSON-RPC encoding of the quantity zero —
is TRUTHY. -/
def truthy : Option String → Bool
  | none => false
  | some s => s ≠ ""

/-- The fields of a raw `eth_getTransactionByHash` result used by
`processTransaction`.  `alchemyProxy.getTransaction` returns the JSON-RPC
`result` unchanged, so quantities are hex strings and a missing field is
`none`. -/
structure TxResult where
  gasPrice : Option String
  value : Option String
  data : Option String
deriving DecidableEq, Repr

/-- The fields of a raw `eth_getTransactionReceipt` result used by
`processTransaction`. -/
structure ReceiptResult where
  effectiveGasPrice : Option String
  gasUsed : Option String
deriving DecidableEq, Repr

/-- Line 59-60 of `TransactionFeed.tsx`:
`receipt.effectiveGasPrice && tx.gasPrice ?
  (Number(receipt.effectiveGasPrice) - Number(tx.gasPrice)) / Number(tx.gasPrice) * 100 : null`. -/
def slippage (tx : TxResult) (receipt : ReceiptResult) : Option JSNum :=
  if truthy receipt.effectiveGasPrice && truthy tx.gasPrice then
    some (jsMul
      (jsDiv
        (jsSub (jsNumberOpt receipt.effectiveGasPrice) (jsNumberOpt tx.gasPrice))
        (jsNumberOpt tx.gasPrice))
      (.num 100))
  else none

/-- Line 61-62 of `TransactionFeed.tsx`:
`receipt.gasUsed && tx.value ?
  (Number(receipt.gasUsed) * Number(receipt.effectiveGasPrice)) / Number(tx.value) * 100 : null`. -/
def priceImpact (tx : TxResult) (receipt : ReceiptResult) : Option JSNum :=
  if truthy receipt.gasUsed && truthy tx.value then
    some (jsMul
      (jsDiv
        (jsMul (jsNumberOpt receipt.gasUsed) (jsNumberOpt receipt.effectiveGasPrice))
        (jsNumberOpt tx.value))
      (.num 100))
  else none

/-! ## The Feed Buffer -/

/-- The `Transaction` interface of `TransactionFeed.tsx` lines 8-23.
`from`/`to` are renamed `fromAddr`/`toAddr` (`from` is a Lean keyword);
`timestamp` is `Date.getTime()` in milliseconds. -/
structure Transaction where
  id : String
  hash : String
  fromAddr : String
  toAddr : String
  value : String
  valueUSD : Option ℚ
  gasFee : String
  timestamp : Nat
  tokenAddress : Option String
  tokenSymbol : Option String
  methodName : Option String
  slippage : Option JSNum
  priceImpact : Option JSNum
  label : Option String
deriving DecidableEq, Repr

/-- `TRANSACTIONS_PER_PAGE = 100` (line 25): the Feed Buffer capacity `N`. -/
def TRANSACTIONS_PER_PAGE : Nat := 100

/-- The Feed Buffer update of `processTransaction` lines 81-84:
`prev.filter(t => t.hash !== newTx.hash)`, prepend `newTx`, then
`.slice(0, TRANSACTIONS_PER_PAGE)`. -/
def upsert (newTx : Transaction) (prev : List Transaction) : List Transaction :=
  let filtered := prev.filter (fun t => t.hash ≠ newTx.hash)
  (newTx :: filtered).take TRANSACTIONS_PER_PAGE

/-- The buffer obtained by applying a whole sequence of `upsert` calls, in
order, to the initial empty buffer (`useState<Transaction[]>([])`, line 29). -/
def applyUpserts (txs : List Transaction) : List Transaction :=
  txs.foldl (fun buf t => upsert t buf) []

/-- The buffer obtained by applying a sequence of `upsert` calls, in order,
to a given starting buffer (the live buffer evolving during a freeze). -/
def applyUpsertsTo (start : List Transaction) (txs : List Transaction) : List Transaction :=
  txs.foldl (fun buf t => upsert t buf) start

/-! ## Pause / resume (freeze / thaw)

`handlePauseToggle` (lines 217-234).  On pause it copies the live buffer
into `pausedTransactions`; on resume it merges
`[...pausedTransactions, ...prevTransactions]` through a JavaScript `Map`
keyed by hash, sorts by timestamp descending and slices to capacity.

A JavaScript `Map` keeps keys in FIRST-insertion order and, on re-insertion
of an existing key, overwrites the VALUE in place — so in
`new Map(allTransactions.map(tx => [tx.hash, tx]))` the paused entries fix
the key order and later (live) entries with the same hash overwrite the
value: the live entry wins. -/

/-- `map.set(tx.hash, tx)` on an association list kept in first-insertion
key order: overwrite in place when the key exists, append otherwise. -/
def mapInsert (m : List Transaction) (tx : Transaction) : List Transaction :=
  if m.any (fun t => t.hash = tx.hash) then
    m.map (fun t => if t.hash = tx.hash then tx else t)
  else m ++ [tx]

/-- `Array.from(new Map(list.map(tx => [tx.hash, tx])).values())`:
feed every element into the map, left to right. -/
def jsMapValues (l : List Transaction) : List Transaction :=
  l.foldl mapInsert []

/-- The comparator `(a, b) => b.timestamp.getTime() - a.timestamp.getTime()`
puts `a` before `b` when it returns a negative number, i.e. when
`a.timestamp > b.timestamp`; as a `≤`-style relation for a stable merge
sort this is `b.timestamp ≤ a.timestamp` (descending). -/
def tsDesc (a b : Transaction) : Bool :=
  b.timestamp ≤ a.timestamp

/-- The resume ("thaw") merge, lines 220-228: concatenate the snapshot with
the live buffer, deduplicate by hash through the `Map` (live wins), sort by
timestamp descending (JavaScript `Array.prototype.sort` is stable, as is
`mergeSort`), slice to `TRANSACTIONS_PER_PAGE`. -/
def thawMerge (pausedTransactions prevTransactions : List Transaction) :
    List Transaction :=
  ((jsMapValues (pausedTransactions ++ prevTransactions)).mergeSort tsDesc).take
    TRANSACTIONS_PER_PAGE

/-- The component state touched by pause/resume: the live buffer
(`transactions`), the snapshot (`pausedTransactions`, line 32) and the flag
(`isPaused`, line 31). -/
structure FeedState where
  transactions : List Transaction
  pausedTransactions : List Transaction
  isPaused : Bool
deriving DecidableEq, Repr

/-- Initial component state (lines 29-32): empty buffer, empty snapshot,
not paused. -/
def initialFeedState : FeedState :=
  { transactions := [], pausedTransactions := [], isPaused := false }

/-- The two events that mutate this state: an enrichment completing
(`setTransactions` in `processTransaction`, which runs regardless of the
pause flag for tasks already in flight) and a click of the pause/resume
button (`handlePauseToggle`). -/
inductive FeedEvent where
  | upsertTx (t : Transaction)
  | pauseToggle
deriving DecidableEq, Repr

/-- One state transition.  Note that the resume branch of
`handlePauseToggle` (lines 218-228) updates `transactions` and flips the
flag but never calls `setPausedTransactions`: the snapshot variable keeps
its contents after a resume. -/
def feedStep (s : FeedState) : FeedEvent → FeedState
  | .upsertTx t => { s with transactions := upsert t s.transactions }
  | .pauseToggle =>
      if s.isPaused then
        { s with
          transactions := thawMerge s.pausedTransactions s.transactions,
          isPaused := false }
      else
        { s with pausedTransactions := s.transactions, isPaused := true }

/-- Run a sequence of events from a state. -/
def feedRun (s : FeedState) (es : List FeedEvent) : FeedState :=
  es.foldl feedStep s

/-! ## The block poller

One active tick of `pollForNewBlocks` (lines 106-196), i.e. a tick on which
`isSubscribed`, `!isPaused` and `isPageVisible` all hold throughout (the
early-exit guards are all false).  The upstream RPC responses are supplied
by an oracle environment; a thrown JavaScript error is `Except.error`. -/

/-- Poller state across ticks: `lastBlockNumber` (the PollCursor, `none`
before the first successful poll), the `error` banner state, and the Feed
Buffer. -/
structure PollState where
  lastBlockNumber : Option Int
  error : Option String
  transactions : List Transaction
deriving DecidableEq, Repr

/-- Oracle for one tick.
`headResult`: outcome of `alchemyProxy.getBlock("latest")` — a thrown error,
a falsy block / block number (`.ok none`), or a parsed head number.
`blockFetch`: outcome of `alchemyProxy.getBlock(blockNum)` per block — a
thrown error or the block's transaction-hash list (a falsy block or missing
transaction list is modelled by `.ok []`, which the code also skips).
`enrichResult`: per transaction hash, the enriched record handed to the
buffer by `processTransaction`, or `none` when that hash was skipped
(missing tx/receipt, fetch error, or already in flight). -/
structure TickEnv where
  headResult : Except String (Option Int)
  blockFetch : Int → Except String (List String)
  enrichResult : String → Option Transaction

/-- Processing of one block inside a tick (lines 132-152 / 165-185): fetch
the block; on a thrown error log and skip the block; otherwise run every
transaction hash through `processTransaction`, each completed enrichment
upserting into the buffer.  (The batching into groups of 5 only bounds
concurrency and paces the UI; each batch settles before the next starts,
so the buffer sees one upsert per successfully enriched hash.) -/
def applyBlock (env : TickEnv) (buf : List Transaction) (blockNum : Int) :
    List Transaction :=
  match env.blockFetch blockNum with
  | .error _ => buf
  | .ok hashes =>
      hashes.foldl
        (fun b h =>
          match env.enrichResult h with
          | some tx => upsert tx b
          | none => b)
        buf

/-- The ascending block range `(last, cur]` iterated by
`for (let blockNum = lastBlockNumber + 1; blockNum <= currentBlockNumber; blockNum++)`
(line 162). -/
def blockRangeAsc (last cur : Int) : List Int :=
  (List.range (cur - last).toNat).map (fun (i : Nat) => last + 1 + (i : Int))

/-- The bootstrap window of the first successful poll (line 126):
`[currentBlockNumber, currentBlockNumber - 1, currentBlockNumber - 2]`,
with `if (blockNum < 0) continue` (line 129) dropping negative numbers. -/
def bootstrapBlocks (cur : Int) : List Int :=
  [cur, cur - 1, cur - 2].filter (fun b => ¬ b < 0)

/-- One active tick of `pollForNewBlocks`.  Returns the updated state and
the ordered list of block numbers whose processing was attempted (the trace
of loop iterations that reached the per-block `try`).

Control flow from the source: `setError(null)` runs first; a thrown head
fetch lands in the outer `catch`, which sets the error banner and leaves
the cursor and buffer untouched; a falsy head block returns early with the
cursor untouched; with an unset cursor the bootstrap window is processed
and the cursor set to the head; otherwise blocks `(last, cur]` are
processed in ascending order — each wrapped in its own `try/catch`, so a
failed block is skipped — and line 189 sets the cursor to the head
unconditionally. -/
def pollForNewBlocks (env : TickEnv) (s : PollState) : PollState × List Int :=
  match env.headResult with
  | .error msg => ({ s with error := some msg }, [])
  | .ok none => ({ s with error := none }, [])
  | .ok (some cur) =>
      match s.lastBlockNumber with
      | none =>
          let blocks := bootstrapBlocks cur
          ({ lastBlockNumber := some cur,
             error := none,
             transactions := blocks.foldl (applyBlock env) s.transactions },
           blocks)
      | some last =>
          let blocks := if last < cur then blockRangeAsc last cur else []
          ({ lastBlockNumber := some cur,
             error := none,
             transactions := blocks.foldl (applyBlock env) s.transactions },
           blocks)

/-! ## In-flight deduplication in `processTransaction`

`processingTxs` (line 36) is a `Set<string>` of hashes currently being
enriched.  `processTransaction` (lines 45-90) checks membership and returns
immediately when the hash is present; otherwise it adds the hash, issues
the `getTransaction`/`getTransactionReceipt` pair, possibly upserts, and
removes the hash in `finally`.  We split the synchronous prefix (the
check-and-insert up to the `await`) from the completion. -/

/-- Enricher state: the in-flight set (a duplicate-free list), the buffer,
and a ghost counter of upstream fetch pairs issued. -/
structure EnrichState where
  processing : List String
  transactions : List Transaction
  fetchPairs : Nat
deriving DecidableEq, Repr

/-- The synchronous prefix of `processTransaction txHash` (lines 46-53): if
`txHash` is already in flight, return with no state change at all;
otherwise record it in flight and issue the fetch pair. -/
def processTransactionStart (s : EnrichState) (txHash : String) : EnrichState :=
  if txHash ∈ s.processing then s
  else
    { s with
      processing := txHash :: s.processing,
      fetchPairs := s.fetchPairs + 1 }

/-- Completion of an in-flight `processTransaction txHash` (lines 56-89):
on a successful enrichment (`some tx`) the record is upserted; on a skip or
error nothing is inserted; in every case the `finally` block removes
`txHash` from the in-flight set. -/
def processTransactionFinish (s : EnrichState) (txHash : String)
    (result : Option Transaction) : EnrichState :=
  { s with
    transactions :=
      match result with
      | some tx => upsert tx s.transactions
      | none => s.transactions,
    processing := s.processing.erase txHash }

/-! ## Sample data for concrete witnesses -/

/-- A sample enriched transaction with hash `"0xa"`. -/
def txA : Transaction :=
  { id := "0xa", hash := "0xa", fromAddr := "0xf1", toAddr := "0xf2",
    value := "0x1", valueUSD := none, gasFee := "0x2", timestamp := 1000,
    tokenAddress := none, tokenSymbol := none, methodName := none,
    slippage := none, priceImpact := none, label := some "dust" }

/-- A re-enrichment of hash `"0xa"` observed later than `txA`. -/
def txA2 : Transaction :=
  { txA with id := "0xa", timestamp := 2000, gasFee := "0x3" }

/-- A sample enriched transaction with hash `"0xb"`. -/
def txB : Transaction :=
  { txA with id := "0xb", hash := "0xb", timestamp := 1500 }

/-- An enricher state with nothing in flight and an empty buffer. -/
def enrichS0 : EnrichState :=
  { processing := [], transactions := [], fetchPairs := 0 }

/-- Poller state before the first successful poll. -/
def pollS0 : PollState :=
  { lastBlockNumber := none, error := none, transactions := [] }

/-- Poller state with cursor at block 100 and one displayed entry. -/
def pollS100 : PollState :=
  { lastBlockNumber := some 100, error := none, transactions := [txA] }

/-- A tick environment whose head fetch returns block 103 and whose other
oracles are inert. -/
def envHead103 : TickEnv :=
  { headResult := .ok (some 103),
    blockFetch := fun _ => .ok [],
    enrichResult := fun _ => none }

/-- A tick environment with head block 103 in which the fetch of block 102
throws (and is skipped). -/
def envBlock102Fails : TickEnv :=
  { headResult := .ok (some 103),
    blockFetch := fun n => if n = 102 then .error "boom" else .ok [],
    enrichResult := fun _ => none }

/-- A tick environment whose head fetch throws. -/
def envHeadFails : TickEnv :=
  { headResult := .error "Failed to fetch blocks",
    blockFetch := fun _ => .ok [],
    enrichResult := fun _ => none }

/-- A tick environment whose head fetch succeeds with block 5. -/
def envHead5 : TickEnv :=
  { headResult := .ok (some 5),
    blockFetch := fun _ => .ok [],
    enrichResult := fun _ => none }

/-- A paused component state whose snapshot and live buffer both hold
`txA`. -/
def pausedState : FeedState :=
  { transactions := [txA], pausedTransactions := [txA], isPaused := true }

/-! ## Lemmas about the Feed Buffer -/

theorem upsert_eq_cons (t : Transaction) (b : List Transaction) :
    upsert t b = t :: ((b.filter fun x => x.hash ≠ t.hash).take 99) := rfl

theorem upsert_length_le (t : Transaction) (b : List Transaction) :
    (upsert t b).length ≤ TRANSACTIONS_PER_PAGE := by
  simp only [upsert, List.length_take]
  exact min_le_left _ _

theorem upsert_hashes_nodup (t : Transaction) (b : List Transaction)
    (h : (b.map Transaction.hash).Nodup) :
    ((upsert t b).map Transaction.hash).Nodup := by
  have hsub : List.Sublist (b.filter fun x => x.hash ≠ t.hash) b :=
    List.filter_sublist b
  have hnd : ((b.filter fun x => x.hash ≠ t.hash).map Transaction.hash).Nodup :=
    ((hsub.map Transaction.hash).nodup) h
  have hmem : t.hash ∉ (b.filter fun x => x.hash ≠ t.hash).map Transaction.hash := by
    intro hm
    rcases List.mem_map.1 hm with ⟨u, hu, hEq⟩
    have hne := (List.mem_filter.1 hu).2
    simp only [ne_eq, decide_not, Bool.not_eq_eq_eq_not, Bool.not_true,
      decide_eq_false_iff_not] at hne
    exact hne hEq
  have hcons : ((t :: (b.filter fun x => x.hash ≠ t.hash)).map Transaction.hash).Nodup := by
    simpa [List.nodup_cons] using And.intro hmem hnd
  rw [upsert_eq_cons]
  exact (((List.take_sublist 99 _).cons₂ t).map Transaction.hash).nodup hcons

theorem foldl_upsert_hashes_nodup (txs : List Transaction) :
    ∀ b : List Transaction, (b.map Transaction.hash).Nodup →
      ((txs.foldl (fun buf t => upsert t buf) b).map Transaction.hash).Nodup := by
  induction txs with
  | nil => intro b hb; simpa using hb
  | cons t rest ih =>
      intro b hb
      exact ih (upsert t b) (upsert_hashes_nodup t b hb)

theorem foldl_upsert_length_le (txs : List Transaction) :
    ∀ b : List Transaction, b.length ≤ TRANSACTIONS_PER_PAGE →
      (txs.foldl (fun buf t => upsert t buf) b).length ≤ TRANSACTIONS_PER_PAGE := by
  induction txs with
  | nil => intro b hb; simpa using hb
  | cons t rest ih =>
      intro b _
      exact ih (upsert t b) (upsert_length_le t b)

theorem filter_hash_ne_length (h : String) (b : List Transaction)
    (hnd : (b.map Transaction.hash).Nodup) (hmem : h ∈ b.map Transaction.hash) :
    (b.filter fun x => x.hash ≠ h).length + 1 = b.length := by
  induction b with
  | nil => simp at hmem
  | cons u rest ih =>
      simp only [List.map_cons, List.nodup_cons] at hnd
      by_cases hu : u.hash = h
      · have hpu : (decide (u.hash ≠ h)) = false := by simp [hu]
        have hrest : (rest.filter fun x => x.hash ≠ h) = rest := by
          apply List.filter_eq_self.2
          intro x hx
          simp only [ne_eq, decide_eq_true_eq]
          intro hEq
          exact hnd.1 (hu ▸ hEq ▸ List.mem_map_of_mem Transaction.hash hx)
        simp only [ne_eq, decide_not] at hrest
        simp [List.filter_cons, hu, hrest]
      · have hpu : (decide (u.hash ≠ h)) = true := by simp [hu]
        have hmem2 : h ∈ rest.map Transaction.hash := by
          simp only [List.map_cons, List.mem_cons] at hmem
          rcases hmem with h1 | h1
          · exact absurd h1.symm hu
          · exact h1
        have hih := ih hnd.2 hmem2
        simp only [List.filter_cons, hpu, if_true, List.length_cons]
        omega

theorem countP_upsert_hash_le_one (tx : Transaction) (b : List Transaction) :
    ((upsert tx b).countP fun x => x.hash = tx.hash) ≤ 1 := by
  rw [upsert_eq_cons]
  have h0 : (((b.filter fun x => x.hash ≠ tx.hash).take 99).countP
      fun x => x.hash = tx.hash) = 0 := by
    rw [List.countP_eq_zero]
    intro a ha
    have hmem : a ∈ b.filter fun x => x.hash ≠ tx.hash :=
      List.Sublist.mem ha (List.take_sublist 99 _)
    have hne := (List.mem_filter.1 hmem).2
    simp only [ne_eq, decide_eq_true_eq] at hne
    simpa using hne
  simp only [ne_eq, decide_not] at h0 ⊢
  simp [List.countP_cons, h0]

/-! ## Claim theorems -/

/-- Claim C1: for every sequence of `upsert` operations applied to the
initially empty Feed Buffer, the buffer's size never exceeds the capacity
`TRANSACTIONS_PER_PAGE = 100` and the buffer never contains two entries
with the same hash. -/
theorem upsert_sequence_bounded_nodup (txs : List Transaction) :
    (applyUpserts txs).length ≤ TRANSACTIONS_PER_PAGE ∧
      ((applyUpserts txs).map Transaction.hash).Nodup :=
  ⟨foldl_upsert_length_le txs [] (by simp [TRANSACTIONS_PER_PAGE]),
   foldl_upsert_hashes_nodup txs [] (by simp)⟩

/-- Claim C9: upserting an entry whose hash is already present in a valid
buffer (duplicate-free hashes, within capacity) moves that hash to the
front — the new entry becomes the head — and leaves the buffer's size
unchanged. -/
theorem upsert_existing_hash_front_size (t : Transaction) (b : List Transaction)
    (hnd : (b.map Transaction.hash).Nodup)
    (hmem : t.hash ∈ b.map Transaction.hash)
    (hlen : b.length ≤ TRANSACTIONS_PER_PAGE) :
    (upsert t b).head? = some t ∧ (upsert t b).length = b.length := by
  refine ⟨by rw [upsert_eq_cons]; rfl, ?_⟩
  have hfl := filter_hash_ne_length t.hash b hnd hmem
  simp only [TRANSACTIONS_PER_PAGE] at hlen
  simp only [upsert, TRANSACTIONS_PER_PAGE, List.length_take, List.length_cons]
  omega

/-- Witness for C9: re-inserting hash `"0xa"` (record `txA2`) into the
one-entry buffer `[txA]` puts `txA2` at the head and keeps the size at 1. -/
theorem upsert_existing_hash_front_size_witness :
    (([txA].map Transaction.hash).Nodup ∧
      txA2.hash ∈ [txA].map Transaction.hash ∧
      [txA].length ≤ TRANSACTIONS_PER_PAGE) ∧
    ((upsert txA2 [txA]).head? = some txA2 ∧
      (upsert txA2 [txA]).length = [txA].length) :=
  ⟨⟨by decide, by decide, by decide⟩,
   upsert_existing_hash_front_size txA2 [txA] (by decide) (by decide) (by decide)⟩

/-- Claim C10 (implicit): every `upsert` preserves the relative order of
all surviving previous entries — the new entry is prepended, and the rest
of the resulting buffer is a subsequence (same relative order) of the
previous buffer; no reordering ever happens on insertion. -/
theorem upsert_preserves_survivor_order (t : Transaction) (b : List Transaction) :
    (upsert t b).head? = some t ∧ List.Sublist (upsert t b).tail b := by
  rw [upsert_eq_cons]
  refine ⟨rfl, ?_⟩
  simp only [List.tail_cons]
  exact (List.take_sublist 99 _).trans (List.filter_sublist b)

/-- Claim C4 is REFUTED by the code: `alchemyProxy` hands
`processTransaction` raw JSON-RPC results, so `tx.gasPrice` is the hex
string `"0x0"` when the gas price is zero — which is truthy — and the
guard on line 59 passes; the code then divides by `Number("0x0") = 0` and
stores `slippage = Infinity` instead of leaving it absent.  Likewise a
zero `value` (`"0x0"`) makes line 61 divide by zero and store
`priceImpact = Infinity`. -/
theorem zero_gasPrice_slippage_present :
    slippage { gasPrice := some "0x0", value := some "0x1", data := none }
        { effectiveGasPrice := some "0x5", gasUsed := some "0x1" } =
      some JSNum.posInf ∧
    priceImpact { gasPrice := some "0x5", value := some "0x0", data := none }
        { effectiveGasPrice := some "0x5", gasUsed := some "0x1" } =
      some JSNum.posInf := by
  have h5 : jsNumberOfString "0x5" = .num 5 := rfl
  have h0 : jsNumberOfString "0x0" = .num 0 := rfl
  have h1 : jsNumberOfString "0x1" = .num 1 := rfl
  constructor
  · simp only [slippage, truthy, jsNumberOpt, h5, h0]
    norm_num [jsSub, jsDiv, jsMul]
    intro hcontra
    exact absurd (hcontra (by decide)) (by decide)
  · simp only [priceImpact, truthy, jsNumberOpt, h5, h0, h1]
    norm_num [jsSub, jsDiv, jsMul]
    intro hcontra
    exact absurd (hcontra (by decide)) (by decide)

/-- Claim C6: when `processTransaction` is invoked for a hash that is
already in the in-flight set, the second invocation returns immediately
with no state change at all; across the overlapping pair exactly one
upstream fetch pair is issued, the final buffer holds at most one entry
with that hash, and the `finally` cleanup restores the in-flight set. -/
theorem enrich_inflight_dedup (s : EnrichState) (txHash : String)
    (result : Option Transaction) (hnotin : txHash ∉ s.processing) :
    processTransactionStart (processTransactionStart s txHash) txHash =
        processTransactionStart s txHash ∧
    (processTransactionStart s txHash).fetchPairs = s.fetchPairs + 1 ∧
    (processTransactionFinish (processTransactionStart s txHash) txHash
        result).fetchPairs = s.fetchPairs + 1 ∧
    (∀ tx, result = some tx → tx.hash = txHash →
      ((processTransactionFinish (processTransactionStart s txHash) txHash
          result).transactions.countP fun x => x.hash = txHash) ≤ 1) ∧
    (processTransactionFinish (processTransactionStart s txHash) txHash
        result).processing = s.processing := by
  have hs1 : processTransactionStart s txHash =
      { s with processing := txHash :: s.processing,
               fetchPairs := s.fetchPairs + 1 } := by
    simp [processTransactionStart, hnotin]
  refine ⟨?_, ?_, ?_, ?_, ?_⟩
  · rw [hs1]
    simp [processTransactionStart]
  · rw [hs1]
  · rw [hs1]
    simp [processTransactionFinish]
  · intro tx hres htx
    rw [hs1, hres]
    simpa [processTransactionFinish, htx] using
      (htx ▸ countP_upsert_hash_le_one tx s.transactions)
  · rw [hs1]
    simp [processTransactionFinish]

/-- Witness for C6: hash `"0xa"` enriched from the empty enricher state,
with a concurrent duplicate invocation, producing `txA`. -/
theorem enrich_inflight_dedup_witness :
    ("0xa" ∉ enrichS0.processing) ∧
    (processTransactionStart (processTransactionStart enrichS0 "0xa") "0xa" =
        processTransactionStart enrichS0 "0xa" ∧
    (processTransactionStart enrichS0 "0xa").fetchPairs = enrichS0.fetchPairs + 1 ∧
    (processTransactionFinish (processTransactionStart enrichS0 "0xa") "0xa"
        (some txA)).fetchPairs = enrichS0.fetchPairs + 1 ∧
    (∀ tx, some txA = some tx → tx.hash = "0xa" →
      ((processTransactionFinish (processTransactionStart enrichS0 "0xa") "0xa"
          (some txA)).transactions.countP fun x => x.hash = "0xa") ≤ 1) ∧
    (processTransactionFinish (processTransactionStart enrichS0 "0xa") "0xa"
        (some txA)).processing = enrichS0.processing) :=
  ⟨by decide, enrich_inflight_dedup enrichS0 "0xa" (some txA) (by decide)⟩

/-- Claim C3, as stated, is FALSE at head block 103: the bootstrap loop
iterates `[currentBlockNumber, currentBlockNumber - 1, currentBlockNumber - 2]`
(line 126), i.e. `[103, 102, 101]` — newest first, not the claimed
oldest-first order `[101, 102, 103]`. -/
theorem bootstrap_order_counterexample :
    (pollForNewBlocks envHead103 pollS0).2 = [103, 102, 101] ∧
      (pollForNewBlocks envHead103 pollS0).2 ≠ [101, 102, 103] := by
  constructor <;> decide

/-- Claim C3 (amended): on the first successful poll (cursor unset) the
poller processes the head block and the 2 preceding blocks in NEWEST-first
(descending) order, skipping negative block numbers, and then sets the
cursor to the head block number. -/
theorem bootstrap_window_newest_first (env : TickEnv) (s : PollState) (cur : Int)
    (hcur : s.lastBlockNumber = none)
    (hhead : env.headResult = .ok (some cur)) :
    (pollForNewBlocks env s).2 = bootstrapBlocks cur ∧
    (∀ b : Int, b ∈ (pollForNewBlocks env s).2 ↔ cur - 2 ≤ b ∧ b ≤ cur ∧ 0 ≤ b) ∧
    (pollForNewBlocks env s).2.Pairwise (fun a b => b < a) ∧
    (pollForNewBlocks env s).1.lastBlockNumber = some cur ∧
    (pollForNewBlocks env s).1.error = none := by
  have hpoll : pollForNewBlocks env s =
      ({ lastBlockNumber := some cur, error := none,
         transactions := (bootstrapBlocks cur).foldl (applyBlock env) s.transactions },
       bootstrapBlocks cur) := by
    simp [pollForNewBlocks, hhead, hcur]
  rw [hpoll]
  refine ⟨rfl, ?_, ?_, rfl, rfl⟩
  · intro b
    simp only [bootstrapBlocks, List.mem_filter, List.mem_cons,
      List.not_mem_nil, or_false, decide_eq_true_eq]
    omega
  · have hfull : ([cur, cur - 1, cur - 2] : List Int).Pairwise (fun a b => b < a) := by
      refine List.Pairwise.cons ?_ (List.Pairwise.cons ?_ (List.pairwise_singleton _ _))
      · intro b hb
        simp only [List.mem_cons, List.mem_singleton, List.not_mem_nil, or_false] at hb
        rcases hb with rfl | rfl <;> omega
      · intro b hb
        simp only [List.mem_singleton] at hb
        subst hb
        omega
    exact hfull.sublist (List.filter_sublist _)

/-- Witness for the amended C3 at head block 103 from the pre-first-poll
state: the attempted blocks are `bootstrapBlocks 103 = [103, 102, 101]`
and the cursor ends at 103. -/
theorem bootstrap_window_newest_first_witness :
    (pollS0.lastBlockNumber = none ∧ envHead103.headResult = .ok (some 103)) ∧
    ((pollForNewBlocks envHead103 pollS0).2 = bootstrapBlocks 103 ∧
    (∀ b : Int, b ∈ (pollForNewBlocks envHead103 pollS0).2 ↔
        103 - 2 ≤ b ∧ b ≤ 103 ∧ 0 ≤ b) ∧
    (pollForNewBlocks envHead103 pollS0).2.Pairwise (fun a b => b < a) ∧
    (pollForNewBlocks envHead103 pollS0).1.lastBlockNumber = some 103 ∧
    (pollForNewBlocks envHead103 pollS0).1.error = none) :=
  ⟨⟨rfl, rfl⟩, bootstrap_window_newest_first envHead103 pollS0 103 rfl rfl⟩

/-- Claim C5: when the fetched head block number exceeds the cursor, one
tick attempts every block in `(cursor, head]` in ascending block-number
order — sequentially, each block's processing completing before the next
begins (`applyBlock` is folded left to right) — and afterwards sets the
cursor to the head.  The theorem holds for EVERY block-fetch oracle `env`,
in particular one in which a block inside the range throws and is skipped:
the attempt trace and the final cursor are unaffected. -/
theorem catchup_range_ascending (env : TickEnv) (s : PollState) (last cur : Int)
    (hlast : s.lastBlockNumber = some last)
    (hhead : env.headResult = .ok (some cur))
    (hlt : last < cur) :
    (pollForNewBlocks env s).2 = blockRangeAsc last cur ∧
    (∀ b : Int, b ∈ (pollForNewBlocks env s).2 ↔ last < b ∧ b ≤ cur) ∧
    (pollForNewBlocks env s).2.Pairwise (fun a b => a < b) ∧
    (pollForNewBlocks env s).1.lastBlockNumber = some cur ∧
    (pollForNewBlocks env s).1.error = none := by
  have hpoll : pollForNewBlocks env s =
      ({ lastBlockNumber := some cur, error := none,
         transactions :=
           (blockRangeAsc last cur).foldl (applyBlock env) s.transactions },
       blockRangeAsc last cur) := by
    simp [pollForNewBlocks, hhead, hlast, hlt]
  rw [hpoll]
  refine ⟨rfl, ?_, ?_, rfl, rfl⟩
  · intro b
    simp only [blockRangeAsc, List.mem_map, List.mem_range]
    constructor
    · rintro ⟨i, hi, rfl⟩
      omega
    · intro hb
      refine ⟨(b - (last + 1)).toNat, by omega, by omega⟩
  · have hr : (List.range (cur - last).toNat).Pairwise (fun i j => i < j) :=
      List.pairwise_lt_range _
    exact (hr.map _ (fun i j hij => by
      have h2 : i < j := hij
      omega))

/-- Witness for C5 at the spec's own example: cursor 100, head 103, block
102 throwing — the attempted blocks are `[101, 102, 103]` in that order
and the cursor ends at 103. -/
theorem catchup_range_ascending_witness :
    (pollS100.lastBlockNumber = some 100 ∧
      envBlock102Fails.headResult = .ok (some 103) ∧ (100 : Int) < 103) ∧
    ((pollForNewBlocks envBlock102Fails pollS100).2 = blockRangeAsc 100 103 ∧
    (∀ b : Int, b ∈ (pollForNewBlocks envBlock102Fails pollS100).2 ↔
        100 < b ∧ b ≤ 103) ∧
    (pollForNewBlocks envBlock102Fails pollS100).2.Pairwise (fun a b => a < b) ∧
    (pollForNewBlocks envBlock102Fails pollS100).1.lastBlockNumber = some 103 ∧
    (pollForNewBlocks envBlock102Fails pollS100).1.error = none) :=
  ⟨⟨rfl, rfl, by decide⟩,
   catchup_range_ascending envBlock102Fails pollS100 100 103 rfl rfl (by decide)⟩

/-- Claim C7: a tick whose head-block fetch throws surfaces the message as
the feed-visible error, leaves the cursor unchanged, leaves the Feed
Buffer's displayed entries unchanged, and attempts no blocks; any
following tick whose head fetch does not throw clears the error again
(`setError(null)` on line 111 stands on every non-throwing path). -/
theorem head_failure_surfaced_and_cleared (env envNext : TickEnv) (s : PollState)
    (msg : String) (hfail : env.headResult = .error msg)
    (hok : ∀ m : String, envNext.headResult ≠ .error m) :
    (pollForNewBlocks env s).1.error = some msg ∧
    (pollForNewBlocks env s).1.lastBlockNumber = s.lastBlockNumber ∧
    (pollForNewBlocks env s).1.transactions = s.transactions ∧
    (pollForNewBlocks env s).2 = [] ∧
    (pollForNewBlocks envNext (pollForNewBlocks env s).1).1.error = none := by
  have h1 : pollForNewBlocks env s = ({ s with error := some msg }, []) := by
    simp [pollForNewBlocks, hfail]
  refine ⟨by rw [h1], by rw [h1], by rw [h1], by rw [h1], ?_⟩
  rw [h1]
  rcases hr : envNext.headResult with m | ob
  · exact absurd hr (hok m)
  · rcases ob with _ | cur
    · simp [pollForNewBlocks, hr]
    · rcases hstate : ({ s with error := some msg } : PollState).lastBlockNumber
        with _ | last
      · simp [pollForNewBlocks, hr, hstate]
      · simp [pollForNewBlocks, hr, hstate]

/-- Witness for C7: a failing tick from cursor 100 with one displayed
entry, followed by a successful tick with head block 5. -/
theorem head_failure_surfaced_and_cleared_witness :
    (envHeadFails.headResult = .error "Failed to fetch blocks" ∧
      (∀ m : String, envHead5.headResult ≠ .error m)) ∧
    ((pollForNewBlocks envHeadFails pollS100).1.error = some "Failed to fetch blocks" ∧
    (pollForNewBlocks envHeadFails pollS100).1.lastBlockNumber = pollS100.lastBlockNumber ∧
    (pollForNewBlocks envHeadFails pollS100).1.transactions = pollS100.transactions ∧
    (pollForNewBlocks envHeadFails pollS100).2 = [] ∧
    (pollForNewBlocks envHead5 (pollForNewBlocks envHeadFails pollS100).1).1.error = none) :=
  ⟨⟨rfl, fun m hm => by simp [envHead5] at hm⟩,
   head_failure_surfaced_and_cleared envHeadFails envHead5 pollS100
     "Failed to fetch blocks" rfl (fun m hm => by simp [envHead5] at hm)⟩

/-- Claim C8, as stated, is FALSE at this input: after upserting `txA`,
pausing, and resuming, the component is no longer paused yet
`pausedTransactions` still holds the captured snapshot — the resume branch
of `handlePauseToggle` never calls `setPausedTransactions`. -/
theorem snapshot_survives_resume_counterexample :
    (feedRun initialFeedState
        [FeedEvent.upsertTx txA, FeedEvent.pauseToggle, FeedEvent.pauseToggle]).isPaused
        = false ∧
    (feedRun initialFeedState
        [FeedEvent.upsertTx txA, FeedEvent.pauseToggle, FeedEvent.pauseToggle]).pausedTransactions
        ≠ [] := by
  constructor <;> decide

/-- Claim C8 (amended): the snapshot is populated from the live buffer on
pause-entry (and the flag set); on resume the live buffer is replaced by
the thaw merge and the flag cleared, but the snapshot variable is NOT
emptied — it keeps its contents, unused, until the next pause overwrites
them. -/
theorem pause_toggle_snapshot_lifecycle (s : FeedState) :
    (s.isPaused = false →
      (feedStep s FeedEvent.pauseToggle).pausedTransactions = s.transactions ∧
      (feedStep s FeedEvent.pauseToggle).isPaused = true ∧
      (feedStep s FeedEvent.pauseToggle).transactions = s.transactions) ∧
    (s.isPaused = true →
      (feedStep s FeedEvent.pauseToggle).pausedTransactions = s.pausedTransactions ∧
      (feedStep s FeedEvent.pauseToggle).isPaused = false ∧
      (feedStep s FeedEvent.pauseToggle).transactions =
        thawMerge s.pausedTransactions s.transactions) := by
  constructor
  · intro h
    simp [feedStep, h]
  · intro h
    simp [feedStep, h]

/-- Witness for the amended C8 at the concrete paused state `pausedState`:
resuming keeps the snapshot contents in place. -/
theorem pause_toggle_snapshot_lifecycle_witness :
    pausedState.isPaused = true ∧
    ((feedStep pausedState FeedEvent.pauseToggle).pausedTransactions =
        pausedState.pausedTransactions ∧
      (feedStep pausedState FeedEvent.pauseToggle).isPaused = false ∧
      (feedStep pausedState FeedEvent.pauseToggle).transactions =
        thawMerge pausedState.pausedTransactions pausedState.transactions) :=
  ⟨rfl, (pause_toggle_snapshot_lifecycle pausedState).2 rfl⟩

/-! ### The thaw merge (claim C2)

The lemmas below characterise the JavaScript `Map`-based deduplication:
keys keep first-insertion order, the value for a key is the last one
written, so over `snapshot ++ live` the live entry wins on a hash
conflict. -/

theorem mapInsert_of_not_mem (m : List Transaction) (tx : Transaction)
    (h : tx.hash ∉ m.map Transaction.hash) : mapInsert m tx = m ++ [tx] := by
  unfold mapInsert
  have hany : m.any (fun t => t.hash = tx.hash) = false := by
    rw [List.any_eq_false]
    intro t ht
    simp only [decide_eq_true_eq]
    intro hEq
    exact h (hEq ▸ List.mem_map_of_mem Transaction.hash ht)
  simp [hany]

theorem mem_mapInsert (m : List Transaction) (tx x : Transaction) :
    x ∈ mapInsert m tx ↔ x = tx ∨ (x ∈ m ∧ x.hash ≠ tx.hash) := by
  unfold mapInsert
  by_cases hany : m.any (fun t => t.hash = tx.hash) = true
  · rw [if_pos hany]
    rcases List.any_eq_true.1 hany with ⟨y0, hy0, hy0h⟩
    simp only [decide_eq_true_eq] at hy0h
    simp only [List.mem_map]
    constructor
    · rintro ⟨y, hy, hEq⟩
      by_cases hyh : y.hash = tx.hash
      · rw [if_pos hyh] at hEq
        exact Or.inl hEq.symm
      · rw [if_neg hyh] at hEq
        exact Or.inr ⟨hEq ▸ hy, hEq ▸ hyh⟩
    · rintro (rfl | ⟨hx, hxh⟩)
      · exact ⟨y0, hy0, by rw [if_pos hy0h]⟩
      · exact ⟨x, hx, by rw [if_neg hxh]⟩
  · rw [if_neg hany]
    have hall : ∀ t ∈ m, t.hash ≠ tx.hash := by
      intro t ht hEq
      exact hany (List.any_eq_true.2 ⟨t, ht, by simp [hEq]⟩)
    simp only [List.mem_append, List.mem_singleton]
    constructor
    · rintro (hx | rfl)
      · exact Or.inr ⟨hx, hall x hx⟩
      · exact Or.inl rfl
    · rintro (rfl | ⟨hx, h2⟩)
      · exact Or.inr rfl
      · exact Or.inl hx

theorem foldl_mapInsert_append (s : List Transaction) :
    ∀ acc : List Transaction, ((acc ++ s).map Transaction.hash).Nodup →
      s.foldl mapInsert acc = acc ++ s := by
  induction s with
  | nil => intro acc _; simp
  | cons t rest ih =>
      intro acc h
      have hth : t.hash ∉ acc.map Transaction.hash := by
        intro hmem
        rw [List.map_append] at h
        have hdisj := (List.nodup_append.1 h).2.2
        exact hdisj hmem (by simp)
      rw [List.foldl_cons, mapInsert_of_not_mem acc t hth]
      have h2 : (((acc ++ [t]) ++ rest).map Transaction.hash).Nodup := by
        simpa [List.append_assoc] using h
      rw [ih (acc ++ [t]) h2]
      simp

theorem mem_foldl_mapInsert (l : List Transaction) :
    ∀ acc : List Transaction, (l.map Transaction.hash).Nodup →
      ∀ x : Transaction,
        x ∈ l.foldl mapInsert acc ↔
          x ∈ l ∨ (x ∈ acc ∧ x.hash ∉ l.map Transaction.hash) := by
  induction l with
  | nil => intro acc _ x; simp
  | cons t rest ih =>
      intro acc hl x
      simp only [List.map_cons, List.nodup_cons] at hl
      rw [List.foldl_cons, ih (mapInsert acc t) hl.2 x]
      constructor
      · rintro (hx | ⟨hmi, hnot⟩)
        · exact Or.inl (List.mem_cons_of_mem t hx)
        · rcases (mem_mapInsert acc t x).1 hmi with heq | ⟨hacc, hne⟩
          · subst heq
            exact Or.inl (List.mem_cons_self _ rest)
          · refine Or.inr ⟨hacc, ?_⟩
            simp only [List.map_cons, List.mem_cons]
            rintro (h1 | h2)
            · exact hne h1
            · exact hnot h2
      · rintro (hx | ⟨hacc, hnot⟩)
        · rcases List.mem_cons.1 hx with heq | hxr
          · subst heq
            exact Or.inr ⟨(mem_mapInsert acc x x).2 (Or.inl rfl), hl.1⟩
          · exact Or.inl hxr
        · have h1 : x.hash ≠ t.hash := by
            intro hEq
            exact hnot (by simp [hEq])
          have h2 : x.hash ∉ rest.map Transaction.hash := by
            intro hmem
            exact hnot (by simp [hmem])
          exact Or.inr ⟨(mem_mapInsert acc t x).2 (Or.inr ⟨hacc, h1⟩), h2⟩

theorem mem_jsMapValues_append (s l : List Transaction)
    (hs : (s.map Transaction.hash).Nodup) (hl : (l.map Transaction.hash).Nodup)
    (x : Transaction) :
    x ∈ jsMapValues (s ++ l) ↔
      x ∈ l ∨ (x ∈ s ∧ x.hash ∉ l.map Transaction.hash) := by
  unfold jsMapValues
  rw [List.foldl_append]
  have h1 : s.foldl mapInsert [] = s := by
    simpa using foldl_mapInsert_append s [] (by simpa using hs)
  rw [h1, mem_foldl_mapInsert l s hl x]

theorem tsDesc_trans (a b c : Transaction) (hab : tsDesc a b) (hbc : tsDesc b c) :
    tsDesc a c := by
  simp only [tsDesc, decide_eq_true_eq] at *
  omega

theorem tsDesc_total (a b : Transaction) : tsDesc a b || tsDesc b a := by
  simp only [tsDesc, Bool.or_eq_true, decide_eq_true_eq]
  omega

/-- Claim C2: for every pre-freeze buffer (a buffer state, so with
duplicate-free hashes) and every sequence of upserts applied to the live
buffer during the freeze, the thaw merge produces the union by hash of the
snapshot and the live buffer — the live buffer's entry winning whenever
both contain the same hash — sorted by timestamp (observedAt) descending
and truncated to the capacity `TRANSACTIONS_PER_PAGE = 100`: the merged
`Map` contents are exactly the live entries plus the snapshot entries
whose hash the live buffer does not contain, and the displayed result is a
descending-sorted selection of them, all of them when they fit within
capacity. -/
theorem thaw_union_sorted_truncated (snapshot txs : List Transaction)
    (hs : (snapshot.map Transaction.hash).Nodup) :
    (∀ x : Transaction,
      x ∈ jsMapValues (snapshot ++ applyUpsertsTo snapshot txs) ↔
        x ∈ applyUpsertsTo snapshot txs ∨
          (x ∈ snapshot ∧
            x.hash ∉ (applyUpsertsTo snapshot txs).map Transaction.hash)) ∧
    (thawMerge snapshot (applyUpsertsTo snapshot txs)).Pairwise
        (fun a b => b.timestamp ≤ a.timestamp) ∧
    (thawMerge snapshot (applyUpsertsTo snapshot txs)).length ≤
        TRANSACTIONS_PER_PAGE ∧
    List.Subperm (thawMerge snapshot (applyUpsertsTo snapshot txs))
        (jsMapValues (snapshot ++ applyUpsertsTo snapshot txs)) ∧
    ((jsMapValues (snapshot ++ applyUpsertsTo snapshot txs)).length ≤
        TRANSACTIONS_PER_PAGE →
      List.Perm (thawMerge snapshot (applyUpsertsTo snapshot txs))
        (jsMapValues (snapshot ++ applyUpsertsTo snapshot txs))) := by
  have hlive : ((applyUpsertsTo snapshot txs).map Transaction.hash).Nodup :=
    foldl_upsert_hashes_nodup txs snapshot hs
  have hsorted : ((jsMapValues
      (snapshot ++ applyUpsertsTo snapshot txs)).mergeSort tsDesc).Pairwise
        (fun a b => b.timestamp ≤ a.timestamp) := by
    have hms := List.sorted_mergeSort tsDesc_trans tsDesc_total
      (jsMapValues (snapshot ++ applyUpsertsTo snapshot txs))
    exact hms.imp (fun h => by simpa [tsDesc] using h)
  refine ⟨?_, ?_, ?_, ?_, ?_⟩
  · exact mem_jsMapValues_append snapshot (applyUpsertsTo snapshot txs) hs hlive
  · exact hsorted.sublist (List.take_sublist _ _)
  · simp only [thawMerge, List.length_take]
    exact min_le_left _ _
  · exact ((List.take_sublist _ _).subperm).trans
      (List.mergeSort_perm _ _).subperm
  · intro hlen
    have hms_len : ((jsMapValues
        (snapshot ++ applyUpsertsTo snapshot txs)).mergeSort tsDesc).length =
          (jsMapValues (snapshot ++ applyUpsertsTo snapshot txs)).length :=
      (List.mergeSort_perm _ _).length_eq
    have heq : thawMerge snapshot (applyUpsertsTo snapshot txs) =
        (jsMapValues (snapshot ++ applyUpsertsTo snapshot txs)).mergeSort tsDesc := by
      simp only [thawMerge]
      exact List.take_of_length_le (by rw [hms_len]; exact hlen)
    rw [heq]
    exact List.mergeSort_perm _ _

/-- Witness for C2 at snapshot `[txA]` and freeze-time upserts `[txB]`. -/
theorem thaw_union_sorted_truncated_witness :
    (([txA].map Transaction.hash).Nodup) ∧
    ((∀ x : Transaction,
      x ∈ jsMapValues ([txA] ++ applyUpsertsTo [txA] [txB]) ↔
        x ∈ applyUpsertsTo [txA] [txB] ∨
          (x ∈ [txA] ∧
            x.hash ∉ (applyUpsertsTo [txA] [txB]).map Transaction.hash)) ∧
    (thawMerge [txA] (applyUpsertsTo [txA] [txB])).Pairwise
        (fun a b => b.timestamp ≤ a.timestamp) ∧
    (thawMerge [txA] (applyUpsertsTo [txA] [txB])).length ≤
        TRANSACTIONS_PER_PAGE ∧
    List.Subperm (thawMerge [txA] (applyUpsertsTo [txA] [txB]))
        (jsMapValues ([txA] ++ applyUpsertsTo [txA] [txB])) ∧
    ((jsMapValues ([txA] ++ applyUpsertsTo [txA] [txB])).length ≤
        TRANSACTIONS_PER_PAGE →
      List.Perm (thawMerge [txA] (applyUpsertsTo [txA] [txB]))
        (jsMapValues ([txA] ++ applyUpsertsTo [txA] [txB])))) :=
  ⟨by decide, thaw_union_sorted_truncated [txA] [txB] (by decide)⟩

end AlphaScope
